import Mathlib

/-!
Shallow embedding of the serverless chat handlers of this repository,
centred on the comprehensive-search variant
(`netlify/functions/claude-ai-with-database.js`): the query analyzer
(`analyzeUserQuery`, `determineIntent`), the multi-table aggregator
(`performComprehensiveSearch` with its broad fallback), the model-fallback
completion loop, the HTTP handler shell, and `extractUserMessage`.

Strings are modelled as `List Char`.  The JavaScript regular expressions
over the fixed keyword vocabularies are alternations of literal words
bracketed by `\b`, so they are modelled by word-boundary literal matching.
The statefulness of `.test()` on a `/g`-flagged regex is modelled exactly:
the search starts at `lastIndex`, a hit moves `lastIndex` past the match,
a miss resets it to 0.  The Supabase query builder is modelled
structurally: the `.or(...)` filter string becomes the list of its
`column.ilike.%term%` disjuncts in construction order, `.in(col, xs)`
becomes an exact-membership filter.  The row store and the completion API
are abstract functions supplied per request; rows are opaque (`Row := Nat`)
because the aggregator only counts them.
-/

namespace TestItemCodes

/-- JavaScript `\w` character class: ASCII letters, digits, underscore. -/
def isWordChar (c : Char) : Bool :=
  ('a' ≤ c && c ≤ 'z') || ('A' ≤ c && c ≤ 'Z') || ('0' ≤ c && c ≤ '9') || c == '_'

/-- JavaScript `\s` character class (the ASCII part; the inputs here are ASCII). -/
def isSpaceChar (c : Char) : Bool :=
  c == ' ' || c == '\t' || c == '\n' || c == '\r' ||
    c == Char.ofNat 11 || c == Char.ofNat 12

/-- JavaScript `\d` character class. -/
def isDigitChar (c : Char) : Bool := '0' ≤ c && c ≤ '9'

/-- `String.prototype.toLowerCase`, characterwise. -/
def toLowerList (s : List Char) : List Char := s.map Char.toLower

/-- `String.prototype.includes` (substring containment). -/
def containsSub : List Char → List Char → Bool
  | [], pat => pat.isEmpty
  | c :: t, pat => pat.isPrefixOf (c :: t) || containsSub t pat

/-- `\b w \b` matches at position `i` of `s`: `w` is a prefix of `s.drop i`,
with a word boundary on each side. -/
def wordAt (s : List Char) (i : Nat) (w : List Char) : Bool :=
  w.isPrefixOf (s.drop i) &&
    (i == 0 || !((s.get? (i - 1)).any isWordChar)) &&
    !((s.get? (i + w.length)).any isWordChar)

/-- First alternative of the alternation that matches at position `i`
(JavaScript alternation is ordered). -/
def findWordAt (words : List (List Char)) (s : List Char) (i : Nat) :
    Option (List Char) :=
  words.find? (fun w => wordAt s i w)

/-- Leftmost match of the alternation at a position `≥ i`; `fuel` bounds the
scan (callers pass `s.length + 1 - i`). -/
def firstMatchFrom (words : List (List Char)) (s : List Char) :
    Nat → Nat → Option (Nat × List Char)
  | 0, _ => none
  | fuel + 1, i =>
    match findWordAt words s i with
    | some w => some (i, w)
    | none => if i < s.length then firstMatchFrom words s fuel (i + 1) else none

/-- `regex.test(s)` for a `/g`-flagged word alternation, starting at
`lastIndex = li`: a hit returns `true` and the new `lastIndex` (just past the
match), a miss returns `false` and resets `lastIndex` to 0. -/
def regexTestG (words : List (List Char)) (s : List Char) (li : Nat) :
    Bool × Nat :=
  match firstMatchFrom words s (s.length + 1 - li) li with
  | some (i, w) => (true, i + w.length)
  | none => (false, 0)

/-- A single `.test(s)` on a freshly created regex object (`lastIndex = 0`). -/
def regexTest (words : List (List Char)) (s : List Char) : Bool :=
  (regexTestG words s 0).1

/-- All matches of `s.match(regex)` with the `g` flag, scanning from `li`. -/
def matchAllAux (words : List (List Char)) (s : List Char) :
    Nat → Nat → List (List Char)
  | 0, _ => []
  | fuel + 1, li =>
    match firstMatchFrom words s (s.length + 1 - li) li with
    | none => []
    | some (i, w) => w :: matchAllAux words s fuel (i + w.length)

/-- `s.match(regex) || []` for a `/g`-flagged word alternation. -/
def matchAll (words : List (List Char)) (s : List Char) : List (List Char) :=
  matchAllAux words s (s.length + 1) 0

/-- Separator class of `lower.split(/[^\w\s]/)`: neither word nor whitespace. -/
def isSepChar (c : Char) : Bool := !(isWordChar c || isSpaceChar c)

/-- `String.prototype.split` on single separator characters; adjacent
separators produce empty pieces, as in JavaScript. -/
def splitNonWs : List Char → List (List Char)
  | [] => [[]]
  | c :: t =>
    if isSepChar c then [] :: splitNonWs t
    else
      match splitNonWs t with
      | [] => [[c]]
      | h :: r => (c :: h) :: r

/-- `[...new Set(l)]`: deduplication keeping the first occurrence, with the
already-seen accumulator explicit. -/
def dedupFirstAux (seen : List (List Char)) : List (List Char) → List (List Char)
  | [] => []
  | x :: xs =>
    if seen.contains x then dedupFirstAux seen xs
    else x :: dedupFirstAux (x :: seen) xs

/-- `[...new Set(l)]`. -/
def dedupFirst (l : List (List Char)) : List (List Char) := dedupFirstAux [] l

/-- Length of the whitespace run starting at position `j` (the `\s*` of the
CSI-code pattern; it is forced, because `\s` and `\d` are disjoint). -/
def wsRunAt (s : List Char) (j : Nat) : Nat :=
  ((s.drop j).takeWhile isSpaceChar).length

/-- Two digits starting at position `k`. -/
def twoDigitsAt (s : List Char) (k : Nat) : Bool :=
  (s.get? k).any isDigitChar && (s.get? (k + 1)).any isDigitChar

/-- Word boundary before position `i` (the `\b` preceding a digit). -/
def boundaryBeforeB (s : List Char) (i : Nat) : Bool :=
  i == 0 || !((s.get? (i - 1)).any isWordChar)

/-- Word boundary after position `e` (the trailing `\b`). -/
def boundaryAfterB (s : List Char) (e : Nat) : Bool :=
  !((s.get? e).any isWordChar)

/-- One optional `\s*\d{2}` extension of the CSI pattern from position `j`. -/
def csiExt (s : List Char) (j : Nat) : Option Nat :=
  let k := j + wsRunAt s j
  if twoDigitsAt s k then some (k + 2) else none

/-- `\b\d{2}(\s*\d{2}(\s*\d{2})?)?\b` matched at position `i`, with the
greedy-then-backtrack preference of the optional groups: the longest
extension whose end sits on a word boundary wins. Returns the end index. -/
def csiMatchAt (s : List Char) (i : Nat) : Option Nat :=
  if boundaryBeforeB s i && twoDigitsAt s i then
    let j := i + 2
    match csiExt s j with
    | some k =>
      match csiExt s k with
      | some l =>
        if boundaryAfterB s l then some l
        else if boundaryAfterB s k then some k
        else if boundaryAfterB s j then some j
        else none
      | none =>
        if boundaryAfterB s k then some k
        else if boundaryAfterB s j then some j
        else none
    | none => if boundaryAfterB s j then some j else none
  else none

/-- Leftmost CSI match at a position `≥ i`. -/
def csiFirstFrom (s : List Char) : Nat → Nat → Option (Nat × Nat)
  | 0, _ => none
  | fuel + 1, i =>
    match csiMatchAt s i with
    | some e => some (i, e)
    | none => if i < s.length then csiFirstFrom s fuel (i + 1) else none

/-- Global scan collecting the matched substrings of the CSI pattern. -/
def csiScanAux (s : List Char) : Nat → Nat → List (List Char)
  | 0, _ => []
  | fuel + 1, li =>
    match csiFirstFrom s (s.length + 1 - li) li with
    | none => []
    | some (i, e) => ((s.drop i).take (e - i)) :: csiScanAux s fuel e

/-- `lower.match(/\b\d{2}(\s*\d{2}(\s*\d{2})?)?\b/g) || []`. -/
def csiMatchAll (s : List Char) : List (List Char) :=
  csiScanAux s (s.length + 1) 0

/-! ## Keyword vocabularies (the regex alternations of `analyzeUserQuery`) -/

/-- `materialKeywords` alternation. -/
def materialKeywords : List (List Char) :=
  ["steel".toList, "electrical".toList, "mechanical".toList, "plumbing".toList,
   "hvac".toList, "concrete".toList, "upvc".toList, "aluminum".toList,
   "copper".toList, "pvc".toList, "pipe".toList, "valve".toList,
   "conduit".toList, "cable".toList, "fitting".toList, "pump".toList,
   "motor".toList, "switch".toList, "panel".toList, "duct".toList,
   "beam".toList, "wire".toList, "insulation".toList]

/-- `projectKeywords` alternation. -/
def projectKeywords : List (List Char) :=
  ["project".toList, "classification".toList, "division".toList,
   "section".toList, "csi".toList, "category".toList]

/-- `itemCodeKeywords` alternation. -/
def itemCodeKeywords : List (List Char) :=
  ["item code".toList, "code".toList, "part".toList, "component".toList,
   "material".toList, "equipment".toList, "product".toList]

/-- `userKeywords` alternation. -/
def userKeywords : List (List Char) :=
  ["user".toList, "reviewer".toList, "admin".toList, "created by".toList,
   "approved by".toList, "person".toList, "staff".toList, "team".toList]

/-- `statusKeywords` alternation (the one regex object whose `lastIndex`
state is observable: it is `.test`ed up to three times per analysis). -/
def statusKeywords : List (List Char) :=
  ["pending".toList, "approved".toList, "rejected".toList, "status".toList,
   "review".toList, "workflow".toList, "submitted".toList, "draft".toList]

/-- `manufacturerKeywords` alternation. -/
def manufacturerKeywords : List (List Char) :=
  ["manufacturer".toList, "supplier".toList, "vendor".toList, "brand".toList,
   "company".toList, "made by".toList]

/-- `attributeKeywords` alternation. -/
def attributeKeywords : List (List Char) :=
  ["attribute".toList, "property".toList, "specification".toList,
   "feature".toList, "characteristic".toList]

/-- `requestKeywords` alternation. -/
def requestKeywords : List (List Char) :=
  ["request".toList, "submission".toList, "application".toList]

/-- `priceKeywords` alternation. -/
def priceKeywords : List (List Char) :=
  ["price".toList, "cost".toList, "expensive".toList, "cheap".toList,
   "budget".toList, "currency".toList]

/-- `dateKeywords` alternation. -/
def dateKeywords : List (List Char) :=
  ["today".toList, "yesterday".toList, "week".toList, "month".toList,
   "year".toList, "recent".toList, "latest".toList, "created".toList,
   "updated".toList]

/-- Stop-word list of the `searchTerms` filter. -/
def stopWords : List (List Char) :=
  ["the".toList, "and".toList, "for".toList, "are".toList, "with".toList,
   "any".toList, "all".toList, "can".toList, "you".toList, "show".toList,
   "find".toList, "get".toList, "list".toList]

/-! ## Intent patterns of `determineIntent` (plain, non-`g` regexes) -/

def searchIntentWords : List (List Char) :=
  ["show".toList, "list".toList, "find".toList, "get".toList, "search".toList]

def countIntentWords : List (List Char) :=
  ["how many".toList, "count".toList, "total".toList, "number".toList]

def whoIntentWords : List (List Char) :=
  ["who".toList, "created".toList, "approved".toList, "reviewed".toList]

def whenIntentWords : List (List Char) :=
  ["when".toList, "date".toList, "time".toList, "recent".toList]

def whyIntentWords : List (List Char) :=
  ["why".toList, "reason".toList, "comment".toList]

def compareIntentWords : List (List Char) :=
  ["compare".toList, "versus".toList, "difference".toList]

def statusIntentWords : List (List Char) :=
  ["status".toList, "pending".toList, "approved".toList, "rejected".toList]

/-- `determineIntent(lower)`: the seven fixed patterns in priority order,
first match wins, else `general`. -/
def determineIntent (lower : List Char) : String :=
  if regexTest searchIntentWords lower then "search"
  else if regexTest countIntentWords lower then "count"
  else if regexTest whoIntentWords lower then "who"
  else if regexTest whenIntentWords lower then "when"
  else if regexTest whyIntentWords lower then "why"
  else if regexTest compareIntentWords lower then "compare"
  else if regexTest statusIntentWords lower then "status"
  else "general"

/-! ## `analyzeUserQuery` -/

/-- The analysis record returned by `analyzeUserQuery`. -/
structure QueryAnalysis where
  originalQuery : List Char
  materials : List (List Char)
  csiCodes : List (List Char)
  searchTerms : List (List Char)
  searchProjects : Bool
  searchItemCodes : Bool
  searchUsers : Bool
  searchRequests : Bool
  searchManufacturers : Bool
  searchAttributes : Bool
  searchReviews : Bool
  searchStatus : Bool
  includePrice : Bool
  includeDate : Bool
  includeStatus : Bool
  intent : String
  complexity : String
deriving DecidableEq, Repr

/-- `analyzeUserQuery(userMessage)`.  All regex objects are created fresh per
call; each is `.test`ed once, except `statusKeywords`, which is `.test`ed in
the `searchRequests`, `searchReviews` and `searchStatus` properties in that
order, so its `lastIndex` threads through the three calls (and the first
call is skipped entirely when `requestKeywords` already matched, because
`||` short-circuits). -/
def analyzeUserQuery (userMessage : List Char) : QueryAnalysis :=
  let lower := toLowerList userMessage
  let materials := dedupFirst ((matchAll materialKeywords lower).map toLowerList)
  let csiCodes := csiMatchAll lower
  let searchTerms := (splitNonWs lower).filter
    (fun term => 2 < term.length && !(stopWords.contains term))
  let reqKw := regexTest requestKeywords lower
  let st1 := if reqKw then (false, 0) else regexTestG statusKeywords lower 0
  let st2 := regexTestG statusKeywords lower st1.2
  let st3 := regexTestG statusKeywords lower st2.2
  { originalQuery := userMessage
    materials := materials
    csiCodes := csiCodes
    searchTerms := searchTerms
    searchProjects :=
      regexTest projectKeywords lower || 0 < csiCodes.length || 0 < materials.length
    searchItemCodes :=
      regexTest itemCodeKeywords lower || 0 < materials.length ||
        containsSub lower ("item".toList) || containsSub lower ("code".toList)
    searchUsers := regexTest userKeywords lower
    searchRequests := reqKw || st1.1
    searchManufacturers := regexTest manufacturerKeywords lower
    searchAttributes := regexTest attributeKeywords lower
    searchReviews := st2.1 || containsSub lower ("review".toList)
    searchStatus := st3.1
    includePrice := regexTest priceKeywords lower
    includeDate := regexTest dateKeywords lower
    includeStatus := true
    intent := determineIntent lower
    complexity := if 3 < searchTerms.length then "complex" else "simple" }

/-! ## Supabase query model and per-table query builders -/

/-- Rows are opaque to the aggregator (it only counts them). -/
abbrev Row := Nat

/-- Structural model of one built Supabase query.  `orFilters` is the list of
`column.ilike.%term%` disjuncts of the single `.or(...)` call, in
construction order (keyword-major, column-minor, exactly as the JavaScript
`map`/`join` builds the filter string); `inFilter` models
`.in(column, values)`.  The `select` column string is omitted: it is never
consulted by the logic under verification. -/
structure SupaQuery where
  table : String
  limit : Nat
  orderByCreatedDesc : Bool
  orFilters : List (String × List Char)
  inFilter : Option (String × List (List Char))
deriving DecidableEq, Repr

/-- Keyword-major product used by every `.or` filter builder:
for each keyword, one `ilike` disjunct per column. -/
def kwCols (kws : List (List Char)) (cols : List String) :
    List (String × List Char) :=
  (kws.map (fun k => cols.map (fun col => (col, k)))).flatten

/-- `searchProjects`: columns of the materials branch. -/
def projMaterialCols : List String :=
  ["project_name", "division_description", "section_description",
   "detailed_section_description", "item_description"]

/-- `searchProjects`: columns of the search-terms branch (one fewer). -/
def projTermCols : List String :=
  ["project_name", "division_description", "section_description",
   "item_description"]

/-- Columns of both `searchItemCodes` branches. -/
def itemCodeCols : List String :=
  ["item_code", "description1", "description2", "manufacturer"]

def userCols : List String := ["username", "email", "role"]

def requestCols : List String := ["attribute_name", "new_value", "reason"]

/-- The searchable categories, in the order `performComprehensiveSearch`
visits them. -/
inductive Category where
  | projects
  | itemCodes
  | users
  | requests
  | manufacturers
  | attributes
  | reviews
deriving DecidableEq, Repr

def catList : List Category :=
  [Category.projects, Category.itemCodes, Category.users, Category.requests,
   Category.manufacturers, Category.attributes, Category.reviews]

/-- The table name pushed onto `tablesSearched` for each category. -/
def tableName : Category → String
  | Category.projects => "classification_projects"
  | Category.itemCodes => "item_code_workflow"
  | Category.users => "users"
  | Category.requests => "standard_value_requests"
  | Category.manufacturers => "project_manufacturers"
  | Category.attributes => "project_attributes"
  | Category.reviews => "review_logs"

/-- The `searchType` tag of the per-category result set. -/
def searchTypeName : Category → String
  | Category.projects => "projects"
  | Category.itemCodes => "itemCodes"
  | Category.users => "users"
  | Category.requests => "requests"
  | Category.manufacturers => "manufacturers"
  | Category.attributes => "attributes"
  | Category.reviews => "reviews"

/-- Message of the error thrown when a category query fails. -/
def searchFailMsg : Category → String → String
  | Category.projects, e => "Projects search failed: " ++ e
  | Category.itemCodes, e => "Item codes search failed: " ++ e
  | Category.users, e => "Users search failed: " ++ e
  | Category.requests, e => "Requests search failed: " ++ e
  | Category.manufacturers, e => "Manufacturers search failed: " ++ e
  | Category.attributes, e => "Attributes search failed: " ++ e
  | Category.reviews, e => "Reviews search failed: " ++ e

/-- The query built by `searchProjects`: materials filter, else the first
three search terms, plus the exact `.in` filter on `division_code` for CSI
codes. -/
def searchProjectsQuery (a : QueryAnalysis) : SupaQuery :=
  let base : SupaQuery :=
    { table := "classification_projects", limit := 10,
      orderByCreatedDesc := true, orFilters := [], inFilter := none }
  let q1 :=
    if 0 < a.materials.length then
      { base with orFilters := kwCols a.materials projMaterialCols }
    else if 0 < a.searchTerms.length then
      { base with orFilters := kwCols (a.searchTerms.take 3) projTermCols }
    else base
  if 0 < a.csiCodes.length then
    { q1 with inFilter := some ("division_code", a.csiCodes) }
  else q1

/-- The query built by `searchItemCodes`. -/
def searchItemCodesQuery (a : QueryAnalysis) : SupaQuery :=
  let base : SupaQuery :=
    { table := "item_code_workflow", limit := 15,
      orderByCreatedDesc := true, orFilters := [], inFilter := none }
  if 0 < a.materials.length then
    { base with orFilters := kwCols a.materials itemCodeCols }
  else if 0 < a.searchTerms.length then
    { base with orFilters := kwCols (a.searchTerms.take 3) itemCodeCols }
  else base

/-- The query built by `searchUsers` (all search terms, no slice). -/
def searchUsersQuery (a : QueryAnalysis) : SupaQuery :=
  let base : SupaQuery :=
    { table := "users", limit := 10, orderByCreatedDesc := false,
      orFilters := [], inFilter := none }
  if 0 < a.searchTerms.length then
    { base with orFilters := kwCols a.searchTerms userCols }
  else base

/-- The query built by `searchRequests` (all search terms). -/
def searchRequestsQuery (a : QueryAnalysis) : SupaQuery :=
  let base : SupaQuery :=
    { table := "standard_value_requests", limit := 10,
      orderByCreatedDesc := true, orFilters := [], inFilter := none }
  if 0 < a.searchTerms.length then
    { base with orFilters := kwCols a.searchTerms requestCols }
  else base

/-- The query built by `searchManufacturers` (materials concatenated with
all search terms, single column). -/
def searchManufacturersQuery (a : QueryAnalysis) : SupaQuery :=
  let base : SupaQuery :=
    { table := "project_manufacturers", limit := 10,
      orderByCreatedDesc := false, orFilters := [], inFilter := none }
  if 0 < a.materials.length || 0 < a.searchTerms.length then
    { base with
        orFilters := kwCols (a.materials ++ a.searchTerms) ["manufacturer_name"] }
  else base

/-- The query built by `searchAttributes` (all search terms, single column). -/
def searchAttributesQuery (a : QueryAnalysis) : SupaQuery :=
  let base : SupaQuery :=
    { table := "project_attributes", limit := 10, orderByCreatedDesc := false,
      orFilters := [], inFilter := none }
  if 0 < a.searchTerms.length then
    { base with orFilters := kwCols a.searchTerms ["attribute_name"] }
  else base

/-- The query built by `searchReviews`: no keyword filter at all. -/
def searchReviewsQuery (_a : QueryAnalysis) : SupaQuery :=
  { table := "review_logs", limit := 10, orderByCreatedDesc := true,
    orFilters := [], inFilter := none }

/-- Dispatch: the query each per-table search function sends to the store. -/
def categoryQuery : Category → QueryAnalysis → SupaQuery
  | Category.projects, a => searchProjectsQuery a
  | Category.itemCodes, a => searchItemCodesQuery a
  | Category.users, a => searchUsersQuery a
  | Category.requests, a => searchRequestsQuery a
  | Category.manufacturers, a => searchManufacturersQuery a
  | Category.attributes, a => searchAttributesQuery a
  | Category.reviews, a => searchReviewsQuery a

/-! ## The search aggregator `performComprehensiveSearch` -/

/-- The abstract row store: each built query either returns rows or fails
with an error message (a thrown `Error` in the source). -/
abbrev Store := SupaQuery → Except String (List Row)

/-- Per-category result value (`{ results, searchType, total }`; the
redundant `searchTerms` echo of two of the search functions is omitted,
as nothing ever reads it). -/
structure SearchResultSet where
  results : List Row
  searchType : String
  total : Nat
deriving DecidableEq, Repr

/-- The aggregate result object.  The seven per-category optional fields of
the source object are modelled as one function from `Category`; the unused
`searchQueries : []` field of the initial object is omitted. -/
structure AggregatedSearch where
  tablesSearched : List String
  totalResults : Nat
  cats : Category → Option SearchResultSet
  searchQuery : List Char
  queryAnalysis : Option QueryAnalysis
  error : Option String

/-- The initial `results` object. -/
def emptyAgg : AggregatedSearch :=
  { tablesSearched := [], totalResults := 0, cats := fun _ => none,
    searchQuery := [], queryAnalysis := none, error := none }

/-- The result set a per-table search function wraps around the rows. -/
def mkResultSet (c : Category) (rows : List Row) : SearchResultSet :=
  { results := rows, searchType := searchTypeName c, total := rows.length }

/-- Retention step: a category result is kept only when it returned at
least one row; keeping it sets the field, appends the table name and adds
the row count to `totalResults`. -/
def addCat (c : Category) (s : SearchResultSet) (r : AggregatedSearch) :
    AggregatedSearch :=
  if s.results.isEmpty then r
  else
    { r with
        cats := fun c' => if c' = c then some s else r.cats c',
        tablesSearched := r.tablesSearched ++ [tableName c],
        totalResults := r.totalResults + s.results.length }

/-- One category pass: query the store, propagate a thrown error, else
retain a non-empty result. -/
def runCategory (store : Store) (a : QueryAnalysis) (c : Category)
    (r : AggregatedSearch) : Except String AggregatedSearch :=
  match store (categoryQuery c a) with
  | Except.error e => Except.error (searchFailMsg c e)
  | Except.ok rows => Except.ok (addCat c (mkResultSet c rows) r)

/-- Whether the flag-guarded pass for a category runs (`reviews` runs when
either `searchReviews` or `searchStatus` is set). -/
def flagEnabled (a : QueryAnalysis) : Category → Bool
  | Category.projects => a.searchProjects
  | Category.itemCodes => a.searchItemCodes
  | Category.users => a.searchUsers
  | Category.requests => a.searchRequests
  | Category.manufacturers => a.searchManufacturers
  | Category.attributes => a.searchAttributes
  | Category.reviews => a.searchReviews || a.searchStatus

/-- The sequence of flag-guarded category passes; the first thrown error
aborts the whole sequence. -/
def runFlagPasses (store : Store) (a : QueryAnalysis) :
    AggregatedSearch → List Category → Except String AggregatedSearch
  | r, [] => Except.ok r
  | r, c :: cs =>
    if flagEnabled a c then
      match runCategory store a c r with
      | Except.error e => Except.error e
      | Except.ok r' => runFlagPasses store a r' cs
    else runFlagPasses store a r cs

/-- `performBroadSearch`: re-run the projects and item-codes queries
unconditionally; its own `try`/`catch` swallows an error from either query
and returns the (then empty) fresh result object. -/
def performBroadSearch (store : Store) (a : QueryAnalysis) : AggregatedSearch :=
  match store (categoryQuery Category.projects a) with
  | Except.error _ => emptyAgg
  | Except.ok prows =>
    match store (categoryQuery Category.itemCodes a) with
    | Except.error _ => emptyAgg
    | Except.ok irows =>
      addCat Category.itemCodes (mkResultSet Category.itemCodes irows)
        (addCat Category.projects (mkResultSet Category.projects prows) emptyAgg)

/-- `Object.assign(results, broadResults)`: the broad object's own keys
(`tablesSearched`, `totalResults`, and any retained category fields)
overwrite those of `results`. -/
def mergeBroad (r b : AggregatedSearch) : AggregatedSearch :=
  { r with
      tablesSearched := b.tablesSearched,
      totalResults := b.totalResults,
      cats := fun c =>
        match b.cats c with
        | some s => some s
        | none => r.cats c }

/-- `performComprehensiveSearch`, instrumented with the number of broad
fallback passes executed (second component), so that "the fallback runs
exactly once" is a provable statement rather than a structural remark. -/
def performComprehensiveSearchCounted (store : Store) (userMessage : List Char) :
    AggregatedSearch × Nat :=
  let a := analyzeUserQuery userMessage
  match runFlagPasses store a emptyAgg catList with
  | Except.error e =>
    ({ emptyAgg with error := some e, searchQuery := userMessage }, 0)
  | Except.ok r =>
    if r.totalResults = 0 then
      let b := performBroadSearch store a
      ({ mergeBroad r b with
          searchQuery := userMessage, queryAnalysis := some a }, 1)
    else
      ({ r with searchQuery := userMessage, queryAnalysis := some a }, 0)

/-- `performComprehensiveSearch(supabase, userMessage)`. -/
def performComprehensiveSearch (store : Store) (userMessage : List Char) :
    AggregatedSearch :=
  (performComprehensiveSearchCounted store userMessage).1

/-! ## Completion client (the model-fallback loop of the comprehensive
handler) -/

/-- Outcome of one `fetch` to the completion API: a transport-level success
carries `data.content[0]?.text` (possibly absent), a non-ok HTTP response
and a thrown network error are both swallowed by the loop.  The prompt and
token budget are fixed per request, so the abstract collaborator is keyed
by model name only. -/
inductive FetchOutcome where
  | ok (text : Option (List Char))
  | httpError
  | netError
deriving DecidableEq, Repr

/-- The fixed ordered model list of the comprehensive handler. -/
def claudeModels : List String :=
  ["claude-3-5-sonnet-20241022", "claude-3-5-sonnet-20240620",
   "claude-3-haiku-20240307"]

/-- The `for (const model of models)` loop: `break` on the first `response.ok`
(recording text and model, the text possibly empty or absent), `continue`
otherwise. -/
def tryModelsLoop (fetch : String → FetchOutcome) :
    List String → Option (Option (List Char) × String)
  | [] => none
  | m :: ms =>
    match fetch m with
    | FetchOutcome.ok t => some (t, m)
    | _ => tryModelsLoop fetch ms

/-- Shape of what the handler keeps from the loop; a failing call has no
model attached and, in this handler, no tested-model list either. -/
structure ClaudeCallResult where
  success : Bool
  text : Option (List Char)
  model : Option String
  testedModels : Option (List String)
deriving DecidableEq, Repr

/-- The failure value (`!claudeResponse` after the loop). -/
def noWorkingModelResult : ClaudeCallResult :=
  { success := false, text := none, model := none, testedModels := none }

/-- The `if (!claudeResponse)` check after the loop: failure when the loop
exhausted the list *or* when the first transport success carried an absent
or empty text. -/
def postLoopCheck (o : Option (Option (List Char) × String)) : ClaudeCallResult :=
  match o with
  | some (some t, m) =>
    if t.isEmpty then noWorkingModelResult
    else { success := true, text := some t, model := some m, testedModels := none }
  | some (none, _) => noWorkingModelResult
  | none => noWorkingModelResult

/-- The completion stage of the comprehensive handler: run the loop, then
test `!claudeResponse`. -/
def completionClient (fetch : String → FetchOutcome) : ClaudeCallResult :=
  postLoopCheck (tryModelsLoop fetch claudeModels)

/-! ## `extractUserMessage` -/

/-- The literal part of `/USER MESSAGE: "([^"]+)"/`. -/
def userMsgMarker : List Char := "USER MESSAGE: \"".toList

/-- The capture of the pattern at position `i`, when the whole pattern
matches there: the marker literal, then a non-empty maximal run of
non-quote characters, then a closing quote. -/
def capAt (s : List Char) (i : Nat) : Option (List Char) :=
  if userMsgMarker.isPrefixOf (s.drop i) then
    let rest := s.drop (i + userMsgMarker.length)
    let cap := rest.takeWhile (fun ch => !(ch == '"'))
    if cap.isEmpty then none
    else if rest.get? cap.length = some '"' then some cap
    else none
  else none

/-- Leftmost position at which the whole pattern matches, scanning like the
regex engine. -/
def extractScan (s : List Char) : Nat → Nat → Option (List Char)
  | 0, _ => none
  | fuel + 1, i =>
    match capAt s i with
    | some c => some c
    | none => if i < s.length then extractScan s fuel (i + 1) else none

/-- `extractUserMessage(prompt)`: the captured group of the first match,
else the whole prompt. -/
def extractUserMessage (prompt : List Char) : List Char :=
  (extractScan prompt (prompt.length + 1) 0).getD prompt

/-- `userMessage || extractUserMessage(prompt)` of the handler; a missing or
empty (falsy) `userMessage` falls through to the extractor.  The `prompt`
is `some` whenever this line is reached with a falsy `userMessage` (the 400
guard already fired otherwise), so the `none` arm is unreachable glue. -/
def actualUserMessageOf (userMessage : Option (List Char))
    (prompt : Option (List Char)) : List Char :=
  match userMessage with
  | some u => if u.isEmpty then extractUserMessage (prompt.getD []) else u
  | none => extractUserMessage (prompt.getD [])

/-! ## The HTTP handler of `claude-ai-with-database.js` -/

/-- Environment-derived configuration. -/
structure Config where
  anthropicApiKey : Option String
  supabaseUrl : Option String
  supabaseKey : Option String
deriving DecidableEq, Repr

/-- Parsed request body (`maxTokens` is irrelevant to the verified logic and
omitted).  `none` at the handler models a body that `JSON.parse` rejects. -/
structure RequestBody where
  prompt : Option (List Char)
  userMessage : Option (List Char)
deriving DecidableEq, Repr

/-- JavaScript truthiness of an optional string. -/
def truthy (o : Option (List Char)) : Bool :=
  match o with
  | some t => !t.isEmpty
  | none => false

/-- The JSON response body, with the fields the verified claims speak
about; absent JSON keys are `none`/`false`. -/
structure RespBody where
  success : Option Bool
  error : Option String
  fallback : Bool
  model : Option String
  responseText : Option (List Char)
  searchResults : Option AggregatedSearch
  testedModels : Option (List String)

structure HttpResponse where
  statusCode : Nat
  body : RespBody

def emptyBody : RespBody :=
  { success := none, error := none, fallback := false, model := none,
    responseText := none, searchResults := none, testedModels := none }

/-- The soft-failure response shape: HTTP 200 with
`success: false`, an error message and `fallback: true`. -/
def softFailure (msg : String) : HttpResponse :=
  { statusCode := 200,
    body := { emptyBody with
      error := some msg, success := some false, fallback := true } }

/-- `exports.handler` of the comprehensive function, over abstract store and
completion collaborators. -/
def handler (cfg : Config) (store : Store) (fetch : String → FetchOutcome)
    (httpMethod : String) (body : Option RequestBody) : HttpResponse :=
  if httpMethod = "OPTIONS" then { statusCode := 200, body := emptyBody }
  else if httpMethod ≠ "POST" then
    { statusCode := 405,
      body := { emptyBody with
        error := some "Method not allowed", success := some false } }
  else
    match body with
    | none =>
      { statusCode := 500,
        body := { emptyBody with
          error := some "Internal function error", success := some false,
          fallback := true } }
    | some rb =>
      if !truthy rb.prompt && !truthy rb.userMessage then
        { statusCode := 400,
          body := { emptyBody with
            error := some "Prompt or userMessage required",
            success := some false } }
      else
        match cfg.anthropicApiKey with
        | none => softFailure "ANTHROPIC_API_KEY not configured"
        | some _ =>
          if cfg.supabaseUrl.isNone || cfg.supabaseKey.isNone then
            softFailure "Supabase configuration missing"
          else
            let actualMsg := actualUserMessageOf rb.userMessage rb.prompt
            let searchResults := performComprehensiveSearch store actualMsg
            let cl := completionClient fetch
            if cl.success then
              { statusCode := 200,
                body := { emptyBody with
                  success := some true, responseText := cl.text,
                  model := cl.model, searchResults := some searchResults } }
            else
              { statusCode := 200,
                body := { emptyBody with
                  error := some "No working Claude models found",
                  success := some false, searchResults := some searchResults,
                  fallback := true } }

/-! ## Spec-side definitions: claim-as-stated and amended formulations -/

/-- The keyword list the spec claims every category filter uses:
the materials list, else the first three search terms. -/
def claimedKeywords (a : QueryAnalysis) : List (List Char) :=
  if a.materials.isEmpty then a.searchTerms.take 3 else a.materials

/-- The completion client as the spec claims it behaves: return on the
first transport success with a non-empty text payload, swallow everything
else, and on exhaustion report a failure carrying the attempted model
list.  (Written from the claim's words, for comparison with
`completionClient`.) -/
def claimedCompletionClient (fetch : String → FetchOutcome) :
    List String → ClaudeCallResult
  | [] => { success := false, text := none, model := none,
            testedModels := some claudeModels }
  | m :: ms =>
    match fetch m with
    | FetchOutcome.ok (some t) =>
      if t.isEmpty then claimedCompletionClient fetch ms
      else { success := true, text := some t, model := some m,
             testedModels := none }
    | _ => claimedCompletionClient fetch ms

/-- The completion client as amended: break on the first transport-level
success regardless of payload; an exhausted list, an absent text, or an
empty text all yield the no-working-model failure, which carries no
attempted-model list.  (Written from the amended claim's words, for
comparison with `completionClient`.) -/
def amendedCompletionClient (fetch : String → FetchOutcome) :
    List String → ClaudeCallResult
  | [] => noWorkingModelResult
  | m :: ms =>
    match fetch m with
    | FetchOutcome.ok (some t) =>
      if t.isEmpty then noWorkingModelResult
      else { success := true, text := some t, model := some m,
             testedModels := none }
    | FetchOutcome.ok none => noWorkingModelResult
    | _ => amendedCompletionClient fetch ms

/-- The per-category `.or` filter as amended: projects and item-codes use
the materials list, else the first three search terms (projects with five
columns for materials, four for terms); users, requests and attributes use
*all* search terms; manufacturers matches the concatenation of materials
and all search terms against the single name column; reviews builds no
keyword filter.  (Written from the amended claim's words, for comparison
with `categoryQuery`.) -/
def specFilterAmended : Category → QueryAnalysis → List (String × List Char)
  | Category.projects, a =>
    if a.materials ≠ [] then kwCols a.materials projMaterialCols
    else kwCols (a.searchTerms.take 3) projTermCols
  | Category.itemCodes, a =>
    if a.materials ≠ [] then kwCols a.materials itemCodeCols
    else kwCols (a.searchTerms.take 3) itemCodeCols
  | Category.users, a => kwCols a.searchTerms userCols
  | Category.requests, a => kwCols a.searchTerms requestCols
  | Category.manufacturers, a =>
    kwCols (a.materials ++ a.searchTerms) ["manufacturer_name"]
  | Category.attributes, a => kwCols a.searchTerms ["attribute_name"]
  | Category.reviews, _ => []

/-! ## Aggregate invariants -/

/-- Row count of an optional category result. -/
def rsLen : Option SearchResultSet → Nat
  | none => 0
  | some s => s.results.length

/-- Sum of the retained categories' row counts. -/
def catSum (r : AggregatedSearch) : Nat :=
  (catList.map (fun c => rsLen (r.cats c))).sum

/-- The retention invariant of the aggregate: a category field is present
exactly when its table name is listed, present fields are non-empty,
`totalResults` is the sum of the retained row counts, and no table is
listed twice. -/
def InvAgg (r : AggregatedSearch) : Prop :=
  (∀ c, (r.cats c).isSome = true ↔ tableName c ∈ r.tablesSearched) ∧
  (∀ c s, r.cats c = some s → s.results ≠ []) ∧
  r.totalResults = catSum r ∧
  r.tablesSearched.Nodup

/-! ## Concrete collaborators used by witnesses and counterexamples -/

/-- A store in which every query succeeds with zero rows. -/
def emptyStore : Store := fun _ => Except.ok ([] : List Row)

/-- A store in which every query fails. -/
def failingStore : Store := fun _ => Except.error "db down"

/-- A completion API on which every model call is a non-ok HTTP response. -/
def allHttpErrorFetch : String → FetchOutcome := fun _ => FetchOutcome.httpError

/-- A completion API on which every model call succeeds with text. -/
def goodFetch : String → FetchOutcome :=
  fun _ => FetchOutcome.ok (some ("hello".toList))

/-- A fully configured environment. -/
def fullConfig : Config :=
  { anthropicApiKey := some "k", supabaseUrl := some "u",
    supabaseKey := some "s" }

/-- An environment with no LLM credential. -/
def noKeyConfig : Config :=
  { anthropicApiKey := none, supabaseUrl := some "u", supabaseKey := some "s" }

/-- A request body whose user message is "project". -/
def projectBody : RequestBody :=
  { prompt := none, userMessage := some ("project".toList) }

/-- Witness prompt for the marker extraction. -/
def markerPrompt : List Char :=
  "Context stuff USER MESSAGE: \"hello there\" tail".toList

/-! ## Tokenizer lemmas -/

/-- Splitting a string with no separator character yields the whole string
as its single piece. -/
theorem splitNonWs_no_sep (s : List Char) (h : ∀ c ∈ s, isSepChar c = false) :
    splitNonWs s = [s] := by
  induction s with
  | nil => rfl
  | cons c t ih =>
    have hc : isSepChar c = false := h c (List.mem_cons_self c t)
    have ht : splitNonWs t = [t] := ih (fun x hx => h x (List.mem_cons_of_mem c hx))
    simp [splitNonWs, hc, ht]

/-! ## C1 -/

/-- C1: for the message "show me pending approvals" the code computes
`intent = search` and `searchStatus = true`, but `searchReviews = false`:
the `/g`-flagged `statusKeywords` regex's `lastIndex` is left past
"pending" by the `searchRequests` test, so the `searchReviews` test resumes
there, finds nothing (and resets), and the claim's conjunct
`searchReviews = true` fails on the code.  This evaluates the embedding at
the failing input. -/
theorem claim1_code_eval :
    (analyzeUserQuery ("show me pending approvals".toList)).intent = "search" ∧
    (analyzeUserQuery ("show me pending approvals".toList)).searchStatus = true ∧
    (analyzeUserQuery ("show me pending approvals".toList)).searchReviews = false := by
  refine ⟨?_, ?_, ?_⟩ <;> decide

/-! ## C2 -/

/-- C2 counterexample: the message "the and" consists only of stop-words,
yet `searchTerms` is not empty — the tokenizer splits on `[^\w\s]` (neither
word nor whitespace), so whitespace does not separate tokens and the whole
phrase survives the stop-word filter. -/
theorem claim2_counterexample :
    (analyzeUserQuery ("the and".toList)).searchTerms ≠ [] ∧
    (analyzeUserQuery ("the and".toList)).searchTerms = ["the and".toList] := by
  refine ⟨?_, ?_⟩ <;> decide

/-- C2 amended: `searchTerms` splits the case-folded message at characters
that are neither word characters nor whitespace and keeps pieces of length
> 2 outside the stop-word set; hence on any message free of such separator
characters it is the whole case-folded text when that text is long enough
and not itself a stop-word, and empty otherwise (in particular empty for
the empty message and for a single stop-word). -/
theorem claim2_amended (msg : List Char)
    (h : ∀ c ∈ toLowerList msg, isSepChar c = false) :
    (analyzeUserQuery msg).searchTerms =
      if 2 < (toLowerList msg).length ∧ toLowerList msg ∉ stopWords then
        [toLowerList msg]
      else [] := by
  have hterms : (analyzeUserQuery msg).searchTerms =
      (splitNonWs (toLowerList msg)).filter
        (fun term => 2 < term.length && !(stopWords.contains term)) := rfl
  rw [hterms, splitNonWs_no_sep _ h]
  by_cases hlen : 2 < (toLowerList msg).length
  · by_cases hmem : toLowerList msg ∈ stopWords
    · simp [List.filter_cons, hlen, hmem]
    · simp [List.filter_cons, hlen, hmem]
  · simp [List.filter_cons, hlen]

/-- C2 amended, witness: at the single stop-word "the", the hypothesis
holds and `searchTerms` is empty. -/
theorem claim2_amended_witness :
    (analyzeUserQuery ("the".toList)).searchTerms = [] := by
  have h := claim2_amended ("the".toList) (by decide)
  simpa using h

/-! ## C5 -/

/-- C5 counterexample: for the message "admin,alpha,bravo,charlie" the
users category is enabled and its filter uses *all four* search terms
(twelve `ilike` disjuncts), not the claimed materials-else-first-three
keyword list (nine disjuncts): the claim's uniform per-category filter rule
fails on the code. -/
theorem claim5_counterexample :
    flagEnabled (analyzeUserQuery ("admin,alpha,bravo,charlie".toList))
        Category.users = true ∧
    (categoryQuery Category.users
        (analyzeUserQuery ("admin,alpha,bravo,charlie".toList))).orFilters ≠
      kwCols (claimedKeywords (analyzeUserQuery ("admin,alpha,bravo,charlie".toList)))
        userCols := by
  refine ⟨?_, ?_⟩ <;> decide

/-- C5 amended: for every analysis, the built `.or` filter equals the
per-category rule of `specFilterAmended` — projects and item-codes use the
materials list, else the first three search terms (projects with five
columns for materials, four for terms); users, requests and attributes use
all search terms; manufacturers uses materials concatenated with all search
terms against the single name column; reviews builds no keyword filter —
and the exact-membership CSI filter on `division_code` is attached only to
the projects query, only when CSI codes were extracted. -/
theorem claim5_amended (a : QueryAnalysis) (c : Category) :
    (categoryQuery c a).orFilters = specFilterAmended c a ∧
    (categoryQuery c a).inFilter =
      (if c = Category.projects ∧ a.csiCodes ≠ [] then
        some ("division_code", a.csiCodes)
      else none) := by
  cases c <;>
    refine ⟨?_, ?_⟩ <;>
      simp only [categoryQuery, searchProjectsQuery, searchItemCodesQuery,
        searchUsersQuery, searchRequestsQuery, searchManufacturersQuery,
        searchAttributesQuery, searchReviewsQuery, specFilterAmended] <;>
      split_ifs <;>
      simp_all [List.length_pos, kwCols, List.length_eq_zero]

/-! ## C7 -/

/-- C7 counterexample: when every model call is a non-ok HTTP response, the
handler's no-working-model failure does not carry the attempted model list
(the claimed client does), so the claim fails on the code. -/
theorem claim7_counterexample :
    completionClient allHttpErrorFetch ≠
      claimedCompletionClient allHttpErrorFetch claudeModels ∧
    (completionClient allHttpErrorFetch).testedModels = none ∧
    (claimedCompletionClient allHttpErrorFetch claudeModels).testedModels =
      some claudeModels := by
  refine ⟨?_, ?_, ?_⟩ <;> decide

/-- Loop-shape of the amended completion behaviour, for any model list. -/
theorem postLoopCheck_tryModels (fetch : String → FetchOutcome) :
    ∀ l : List String,
      postLoopCheck (tryModelsLoop fetch l) = amendedCompletionClient fetch l := by
  intro l
  induction l with
  | nil => rfl
  | cons m ms ih =>
    cases hm : fetch m with
    | ok t =>
      cases t with
      | none => simp [tryModelsLoop, hm, amendedCompletionClient, postLoopCheck]
      | some t' =>
        simp [tryModelsLoop, hm, amendedCompletionClient, postLoopCheck]
    | httpError => simpa [tryModelsLoop, hm, amendedCompletionClient] using ih
    | netError => simpa [tryModelsLoop, hm, amendedCompletionClient] using ih

/-- C7 amended: the completion client iterates the fixed model list and
breaks on the first transport-level success regardless of payload;
non-success responses and thrown errors are swallowed and the next model
tried; an exhausted list, or a first transport success whose text payload
is absent or empty, yields the no-working-model failure, and that failure
carries no attempted-model list. -/
theorem claim7_amended (fetch : String → FetchOutcome) :
    completionClient fetch = amendedCompletionClient fetch claudeModels :=
  postLoopCheck_tryModels fetch claudeModels

/-! ## Aggregator execution lemmas -/

/-- Every category is in the visiting order. -/
theorem mem_catList (c : Category) : c ∈ catList := by
  cases c <;> simp [catList]

/-- A category pass whose query returns zero rows leaves the aggregate
unchanged. -/
theorem addCat_empty (c : Category) (r : AggregatedSearch) :
    addCat c (mkResultSet c []) r = r := by
  simp [addCat, mkResultSet]

/-- `addCat` does not touch the fields of other categories. -/
theorem addCat_cats_ne (c c' : Category) (s : SearchResultSet)
    (r : AggregatedSearch) (h : c' ≠ c) : (addCat c s r).cats c' = r.cats c' := by
  unfold addCat
  split
  · rfl
  · simp [h]

/-- If every enabled category query returns zero rows, the flag passes do
not change the aggregate. -/
theorem runFlagPasses_all_empty (store : Store) (a : QueryAnalysis) :
    ∀ (l : List Category) (r : AggregatedSearch),
      (∀ c ∈ l, flagEnabled a c = true → store (categoryQuery c a) = Except.ok []) →
      runFlagPasses store a r l = Except.ok r := by
  intro l
  induction l with
  | nil => intro r _; rfl
  | cons c cs ih =>
    intro r h
    by_cases hc : flagEnabled a c = true
    · have hs : store (categoryQuery c a) = Except.ok [] :=
        h c (List.mem_cons_self c cs) hc
      have ht : runFlagPasses store a r cs = Except.ok r :=
        ih r (fun c' hc' => h c' (List.mem_cons_of_mem c hc'))
      simp [runFlagPasses, hc, runCategory, hs, addCat_empty, ht]
    · have ht : runFlagPasses store a r cs = Except.ok r :=
        ih r (fun c' hc' => h c' (List.mem_cons_of_mem c hc'))
      simp [runFlagPasses, hc, ht]

/-- If some enabled category in the remaining list has a failing query, the
flag passes abort with an error. -/
theorem runFlagPasses_error (store : Store) (a : QueryAnalysis) :
    ∀ (l : List Category) (r : AggregatedSearch),
      (∃ c e, c ∈ l ∧ flagEnabled a c = true ∧
          store (categoryQuery c a) = Except.error e) →
      ∃ e', runFlagPasses store a r l = Except.error e' := by
  intro l
  induction l with
  | nil =>
    intro r h
    obtain ⟨c, e, hc, _, _⟩ := h
    exact absurd hc (List.not_mem_nil c)
  | cons c0 cs ih =>
    intro r h
    obtain ⟨c, e, hc, hen, herr⟩ := h
    by_cases h0 : flagEnabled a c0 = true
    · cases hs : store (categoryQuery c0 a) with
      | error e0 =>
        exact ⟨searchFailMsg c0 e0, by simp [runFlagPasses, h0, runCategory, hs]⟩
      | ok rows =>
        have htail : c ∈ cs := by
          rcases List.mem_cons.mp hc with hceq | hmem
          · subst hceq; rw [herr] at hs; exact absurd hs (by simp)
          · exact hmem
        obtain ⟨e', he'⟩ :=
          ih (addCat c0 (mkResultSet c0 rows) r) ⟨c, e, htail, hen, herr⟩
        exact ⟨e', by simp [runFlagPasses, h0, runCategory, hs, he']⟩
    · have htail : c ∈ cs := by
        rcases List.mem_cons.mp hc with hceq | hmem
        · subst hceq; exact absurd hen h0
        · exact hmem
      obtain ⟨e', he'⟩ := ih r ⟨c, e, htail, hen, herr⟩
      exact ⟨e', by simp [runFlagPasses, h0, he']⟩

/-- The broad fallback can only list the projects and item-codes tables. -/
theorem broad_tables_sub (store : Store) (a : QueryAnalysis) :
    ∀ t ∈ (performBroadSearch store a).tablesSearched,
      t = "classification_projects" ∨ t = "item_code_workflow" := by
  unfold performBroadSearch
  cases hp : store (categoryQuery Category.projects a) with
  | error e => simp [emptyAgg]
  | ok prows =>
    cases hi : store (categoryQuery Category.itemCodes a) with
    | error e => simp [emptyAgg]
    | ok irows =>
      by_cases hpe : prows = [] <;> by_cases hie : irows = [] <;>
        simp [addCat, mkResultSet, emptyAgg, hpe, hie, tableName]

/-- The broad fallback never populates a category other than projects and
item-codes. -/
theorem broad_cats_other (store : Store) (a : QueryAnalysis) (c : Category)
    (h1 : c ≠ Category.projects) (h2 : c ≠ Category.itemCodes) :
    (performBroadSearch store a).cats c = none := by
  unfold performBroadSearch
  cases hp : store (categoryQuery Category.projects a) with
  | error e => rfl
  | ok prows =>
    cases hi : store (categoryQuery Category.itemCodes a) with
    | error e => rfl
    | ok irows =>
      rw [addCat_cats_ne _ _ _ _ h2, addCat_cats_ne _ _ _ _ h1]
      rfl

/-! ## C3 -/

/-- C3: whenever every enabled category query returns zero rows, the broad
fallback is what populates the result: `tablesSearched` can only contain
the projects and item-codes table names, every other category field stays
absent, and the fallback pass runs exactly once (the instrumented counter
is 1 — in particular no second fallback round occurs). -/
theorem claim3_fallback (store : Store) (msg : List Char)
    (h : ∀ c, flagEnabled (analyzeUserQuery msg) c = true →
        store (categoryQuery c (analyzeUserQuery msg)) = Except.ok []) :
    (∀ t ∈ (performComprehensiveSearchCounted store msg).1.tablesSearched,
        t = "classification_projects" ∨ t = "item_code_workflow") ∧
    (performComprehensiveSearchCounted store msg).2 = 1 ∧
    (∀ c, c ≠ Category.projects → c ≠ Category.itemCodes →
        (performComprehensiveSearchCounted store msg).1.cats c = none) := by
  have hrun := runFlagPasses_all_empty store (analyzeUserQuery msg) catList
    emptyAgg (fun c _ hc => h c hc)
  have heq : performComprehensiveSearchCounted store msg =
      ({ mergeBroad emptyAgg (performBroadSearch store (analyzeUserQuery msg)) with
          searchQuery := msg, queryAnalysis := some (analyzeUserQuery msg) }, 1) := by
    simp only [performComprehensiveSearchCounted, hrun]
    rfl
  rw [heq]
  refine ⟨?_, rfl, ?_⟩
  · intro t ht
    simp only [mergeBroad] at ht
    exact broad_tables_sub store (analyzeUserQuery msg) t ht
  · intro c hc1 hc2
    simp only [mergeBroad]
    rw [broad_cats_other store (analyzeUserQuery msg) c hc1 hc2]
    rfl

/-- C3 witness: a store that answers every query with zero rows, message
"project": the fallback counter is 1 and `tablesSearched` is within the
two fallback tables. -/
theorem claim3_fallback_witness :
    (performComprehensiveSearchCounted emptyStore ("project".toList)).2 = 1 ∧
    (∀ t ∈ (performComprehensiveSearchCounted emptyStore
        ("project".toList)).1.tablesSearched,
      t = "classification_projects" ∨ t = "item_code_workflow") := by
  have h := claim3_fallback emptyStore ("project".toList) (fun c _ => rfl)
  exact ⟨h.2.1, h.1⟩

/-! ## C6 -/

/-- C6: if any enabled category's store query fails, the whole aggregation
aborts: the result carries an error message, `tablesSearched` is empty,
`totalResults` is zero and no category field is populated — never a
partial aggregate with rows from categories queried before the failure. -/
theorem claim6_abort (store : Store) (msg : List Char)
    (h : ∃ c e, flagEnabled (analyzeUserQuery msg) c = true ∧
        store (categoryQuery c (analyzeUserQuery msg)) = Except.error e) :
    (performComprehensiveSearch store msg).error.isSome = true ∧
    (performComprehensiveSearch store msg).tablesSearched = [] ∧
    (performComprehensiveSearch store msg).totalResults = 0 ∧
    ∀ c, (performComprehensiveSearch store msg).cats c = none := by
  obtain ⟨c, e, hen, herr⟩ := h
  obtain ⟨e', hrun⟩ := runFlagPasses_error store (analyzeUserQuery msg) catList
    emptyAgg ⟨c, e, mem_catList c, hen, herr⟩
  have heq : performComprehensiveSearch store msg =
      { emptyAgg with error := some e', searchQuery := msg } := by
    simp only [performComprehensiveSearch, performComprehensiveSearchCounted,
      hrun]
  rw [heq]
  exact ⟨rfl, rfl, rfl, fun _ => rfl⟩

/-- C6 witness: a store that fails every query, message "project" (which
enables the projects category): the result is the empty, error-carrying
aggregate. -/
theorem claim6_abort_witness :
    (performComprehensiveSearch failingStore ("project".toList)).error.isSome = true ∧
    (performComprehensiveSearch failingStore ("project".toList)).tablesSearched = [] ∧
    (performComprehensiveSearch failingStore ("project".toList)).totalResults = 0 := by
  have h := claim6_abort failingStore ("project".toList)
    ⟨Category.projects, "db down", by decide, rfl⟩
  exact ⟨h.1, h.2.1, h.2.2.1⟩

/-! ## C8 -/

/-- C8 counterexample: with full configuration, a store that fails every
query, and a working model, the handler returns HTTP 200 with
`success: true` and `fallback: false` even though the store errored (the
error is only embedded in `searchResults`): a store error does not produce
the claimed soft-failure body, so the claim fails on the code. -/
theorem claim8_counterexample :
    (handler fullConfig failingStore goodFetch "POST" (some projectBody)).statusCode
        = 200 ∧
    (handler fullConfig failingStore goodFetch "POST"
        (some projectBody)).body.success = some true ∧
    (handler fullConfig failingStore goodFetch "POST"
        (some projectBody)).body.fallback = false ∧
    (performComprehensiveSearch failingStore ("project".toList)).error =
      some "Projects search failed: db down" := by
  refine ⟨?_, ?_, ?_, ?_⟩ <;> decide

/-- C8 amended: missing LLM configuration, missing store configuration and
the no-working-model case each yield the HTTP 200 soft-failure shape
(`success: false`, an error message, `fallback: true`) — never 4xx/5xx;
a store error alone is not surfaced this way (it rides inside
`searchResults` while the request proceeds to the completion client). -/
theorem claim8_amended (cfg : Config) (store : Store)
    (fetch : String → FetchOutcome) (rb : RequestBody)
    (hp : truthy rb.prompt = true ∨ truthy rb.userMessage = true) :
    (cfg.anthropicApiKey = none →
      handler cfg store fetch "POST" (some rb) =
        softFailure "ANTHROPIC_API_KEY not configured") ∧
    (cfg.anthropicApiKey.isSome = true →
      (cfg.supabaseUrl = none ∨ cfg.supabaseKey = none) →
      handler cfg store fetch "POST" (some rb) =
        softFailure "Supabase configuration missing") ∧
    (cfg.anthropicApiKey.isSome = true → cfg.supabaseUrl.isSome = true →
      cfg.supabaseKey.isSome = true →
      (completionClient fetch).success = false →
      (handler cfg store fetch "POST" (some rb)).statusCode = 200 ∧
      (handler cfg store fetch "POST" (some rb)).body.success = some false ∧
      (handler cfg store fetch "POST" (some rb)).body.fallback = true ∧
      (handler cfg store fetch "POST" (some rb)).body.error =
        some "No working Claude models found") := by
  have hbody : (!truthy rb.prompt && !truthy rb.userMessage) = false := by
    rcases hp with h | h <;> simp [h]
  refine ⟨?_, ?_, ?_⟩
  · intro hk
    simp [handler, hbody, hk]
  · intro hk hsup
    obtain ⟨k, hk⟩ := Option.isSome_iff_exists.mp hk
    rcases hsup with hs | hs <;>
      simp [handler, hbody, hk, hs]
  · intro hk hu hs hcl
    obtain ⟨k, hk⟩ := Option.isSome_iff_exists.mp hk
    have hu' : cfg.supabaseUrl ≠ none := Option.ne_none_iff_isSome.mpr hu
    have hs' : cfg.supabaseKey ≠ none := Option.ne_none_iff_isSome.mpr hs
    refine ⟨?_, ?_, ?_, ?_⟩ <;>
      simp [handler, hbody, hk, hu, hs, hu', hs', hcl]

/-- C8 amended, witness: with no LLM credential and a valid POST body, the
response is exactly the soft-failure shape. -/
theorem claim8_amended_witness :
    handler noKeyConfig emptyStore goodFetch "POST" (some projectBody) =
      softFailure "ANTHROPIC_API_KEY not configured" := by
  have h := claim8_amended noKeyConfig emptyStore goodFetch projectBody
    (Or.inr (by decide))
  exact h.1 rfl

/-! ## Retention invariant (C4) -/

/-- Distinct categories have distinct table names. -/
theorem tableName_injective : ∀ c c' : Category, tableName c = tableName c' → c = c' := by
  intro c c'
  cases c <;> cases c' <;> decide

/-- The visiting order has no repeats. -/
theorem catList_nodup : catList.Nodup := by decide

/-- Summing a pointwise-equal-except-at-one-spot function over a
duplicate-free list: the sum grows by the new value when the old value at
that spot was zero. -/
theorem sum_map_update (l : List Category) (f g : Category → Nat) (c : Category)
    (hnd : l.Nodup) (hmem : c ∈ l)
    (hagree : ∀ c' ∈ l, c' ≠ c → f c' = g c') (hc : g c = 0) :
    (l.map f).sum = (l.map g).sum + f c := by
  induction l with
  | nil => cases hmem
  | cons a as ih =>
    rcases List.mem_cons.mp hmem with rfl | hmem'
    · have hnotin : c ∉ as := (List.nodup_cons.mp hnd).1
      have hmap : as.map f = as.map g :=
        List.map_congr_left (fun x hx =>
          hagree x (List.mem_cons_of_mem _ hx) (fun hxc => hnotin (hxc ▸ hx)))
      simp only [List.map_cons, List.sum_cons, hmap, hc]
      omega
    · have hac : a ≠ c := by
        intro h
        exact (List.nodup_cons.mp hnd).1 (h ▸ hmem')
      have ha : f a = g a := hagree a (List.mem_cons_self a as) hac
      have hih := ih (List.nodup_cons.mp hnd).2 hmem'
        (fun c' hc' => hagree c' (List.mem_cons_of_mem _ hc'))
      simp only [List.map_cons, List.sum_cons, ha, hih]
      omega

/-- The initial aggregate satisfies the retention invariant. -/
theorem inv_emptyAgg : InvAgg emptyAgg := by
  refine ⟨?_, ?_, rfl, ?_⟩ <;> simp [emptyAgg]

/-- Retention preserves the invariant when the category was not yet set. -/
theorem addCat_inv (c : Category) (s : SearchResultSet) (r : AggregatedSearch)
    (hinv : InvAgg r) (hc : r.cats c = none) : InvAgg (addCat c s r) := by
  obtain ⟨h1, h2, h3, h4⟩ := hinv
  by_cases he : s.results.isEmpty = true
  · simpa [addCat, he] using ⟨h1, h2, h3, h4⟩
  · have hne : s.results ≠ [] := by simpa [List.isEmpty_iff] using he
    have hnmem : tableName c ∉ r.tablesSearched := by
      intro hmem
      have := (h1 c).mpr hmem
      simp [hc] at this
    unfold addCat
    rw [if_neg he]
    refine ⟨?_, ?_, ?_, ?_⟩
    · intro c'
      by_cases hcc : c' = c
      · subst hcc
        simp [List.mem_append]
      · have htn : tableName c' ≠ tableName c :=
          fun h => hcc (tableName_injective c' c h)
        simp only [hcc, if_false, List.mem_append, List.mem_singleton, htn,
          or_false]
        exact h1 c'
    · intro c' s' hs'
      by_cases hcc : c' = c
      · subst hcc
        have hs2 : (if c' = c' then some s else r.cats c') = some s' := hs'
        rw [if_pos rfl] at hs2
        injection hs2 with hss
        exact hss ▸ hne
      · simp only [hcc, if_false] at hs'
        exact h2 c' s' hs'
    · show r.totalResults + s.results.length = catSum _
      have hupd := sum_map_update catList
        (fun c' => rsLen (if c' = c then some s else r.cats c'))
        (fun c' => rsLen (r.cats c')) c catList_nodup (mem_catList c)
        (fun c' _ hc' => by simp [hc'])
        (by simp [hc, rsLen])
      rw [show catSum { r with
          cats := fun c' => if c' = c then some s else r.cats c',
          tablesSearched := r.tablesSearched ++ [tableName c],
          totalResults := r.totalResults + s.results.length } =
        (catList.map (fun c' => rsLen (if c' = c then some s else r.cats c'))).sum
        from rfl]
      rw [hupd]
      have hbeta : (fun c' => rsLen (if c' = c then some s else r.cats c')) c =
          s.results.length := by
        simp [rsLen]
      rw [hbeta, h3]
      rfl
    · rw [List.nodup_append]
      refine ⟨h4, List.nodup_singleton _, ?_⟩
      intro x hx hx'
      rw [List.mem_singleton] at hx'
      exact hnmem (hx' ▸ hx)

/-- The flag passes preserve the invariant, starting from an aggregate whose
remaining categories are unset. -/
theorem runFlagPasses_inv (store : Store) (a : QueryAnalysis) :
    ∀ (l : List Category) (r r' : AggregatedSearch), InvAgg r →
      (∀ c ∈ l, r.cats c = none) → l.Nodup →
      runFlagPasses store a r l = Except.ok r' → InvAgg r' := by
  intro l
  induction l with
  | nil =>
    intro r r' hinv _ _ hrun
    simp only [runFlagPasses, Except.ok.injEq] at hrun
    exact hrun ▸ hinv
  | cons c cs ih =>
    intro r r' hinv hnone hnd hrun
    by_cases hc : flagEnabled a c = true
    · simp only [runFlagPasses, hc, if_true] at hrun
      cases hs : store (categoryQuery c a) with
      | error e => simp [runCategory, hs] at hrun
      | ok rows =>
        simp only [runCategory, hs] at hrun
        have hcnotin : c ∉ cs := (List.nodup_cons.mp hnd).1
        refine ih (addCat c (mkResultSet c rows) r) r' ?_ ?_
          (List.nodup_cons.mp hnd).2 hrun
        · exact addCat_inv c _ r hinv (hnone c (List.mem_cons_self c cs))
        · intro c' hc'
          have hcc : c' ≠ c := fun h => hcnotin (h ▸ hc')
          rw [addCat_cats_ne c c' _ r hcc]
          exact hnone c' (List.mem_cons_of_mem _ hc')
    · simp only [runFlagPasses, hc, if_false] at hrun
      exact ih r r' hinv (fun c' hc' => hnone c' (List.mem_cons_of_mem _ hc'))
        (List.nodup_cons.mp hnd).2 hrun

/-- The broad fallback's result satisfies the retention invariant. -/
theorem broad_inv (store : Store) (a : QueryAnalysis) :
    InvAgg (performBroadSearch store a) := by
  unfold performBroadSearch
  cases hp : store (categoryQuery Category.projects a) with
  | error e => exact inv_emptyAgg
  | ok prows =>
    cases hi : store (categoryQuery Category.itemCodes a) with
    | error e => exact inv_emptyAgg
    | ok irows =>
      refine addCat_inv _ _ _ (addCat_inv _ _ _ inv_emptyAgg rfl) ?_
      rw [addCat_cats_ne Category.projects Category.itemCodes _ _ (by decide)]
      rfl

/-- With the invariant, zero `totalResults` means no category is populated. -/
theorem cats_none_of_total_zero (r : AggregatedSearch) (hinv : InvAgg r)
    (h0 : r.totalResults = 0) (c : Category) : r.cats c = none := by
  obtain ⟨_, h2, h3, _⟩ := hinv
  cases hc : r.cats c with
  | none => rfl
  | some s =>
    exfalso
    have hne := h2 c s hc
    have hlen : 0 < s.results.length := List.length_pos.mpr hne
    have hmem : rsLen (r.cats c) ∈ catList.map (fun c' => rsLen (r.cats c')) :=
      List.mem_map_of_mem _ (mem_catList c)
    have hle : rsLen (r.cats c) ≤ catSum r :=
      List.single_le_sum (fun x _ => Nat.zero_le x) _ hmem
    have hcs : catSum r = 0 := by rw [← h3]; exact h0
    rw [hc, hcs] at hle
    simp only [rsLen] at hle
    omega

/-! ## C4 -/

/-- C4: for every store and message, the aggregate retains a category field
exactly when its table name appears in `tablesSearched`; every retained
result set is non-empty (empty results are dropped); `totalResults` equals
the sum of the retained categories' row counts; and no table is listed
twice.  This holds on every path: flag passes, broad fallback, and the
error shape. -/
theorem claim4_retention (store : Store) (msg : List Char) :
    (∀ c, ((performComprehensiveSearch store msg).cats c).isSome = true ↔
        tableName c ∈ (performComprehensiveSearch store msg).tablesSearched) ∧
    (∀ c s, (performComprehensiveSearch store msg).cats c = some s →
        s.results ≠ []) ∧
    (performComprehensiveSearch store msg).totalResults =
      catSum (performComprehensiveSearch store msg) ∧
    (performComprehensiveSearch store msg).tablesSearched.Nodup := by
  suffices h : InvAgg (performComprehensiveSearch store msg) from h
  cases hrun : runFlagPasses store (analyzeUserQuery msg) emptyAgg catList with
  | error e =>
    have heq : performComprehensiveSearch store msg =
        { emptyAgg with error := some e, searchQuery := msg } := by
      simp only [performComprehensiveSearch, performComprehensiveSearchCounted,
        hrun]
    rw [heq]
    refine ⟨?_, ?_, rfl, ?_⟩ <;> simp [emptyAgg]
  | ok r =>
    have hinv : InvAgg r := runFlagPasses_inv store (analyzeUserQuery msg)
      catList emptyAgg r inv_emptyAgg (fun c _ => rfl) catList_nodup hrun
    by_cases h0 : r.totalResults = 0
    · have hb := broad_inv store (analyzeUserQuery msg)
      have hrc : ∀ c, r.cats c = none := cats_none_of_total_zero r hinv h0
      have heq : performComprehensiveSearch store msg =
          { mergeBroad r (performBroadSearch store (analyzeUserQuery msg)) with
              searchQuery := msg,
              queryAnalysis := some (analyzeUserQuery msg) } := by
        simp only [performComprehensiveSearch, performComprehensiveSearchCounted,
          hrun, if_pos h0]
      rw [heq]
      have hcats : ∀ c,
          (mergeBroad r (performBroadSearch store (analyzeUserQuery msg))).cats c =
            (performBroadSearch store (analyzeUserQuery msg)).cats c := by
        intro c
        simp only [mergeBroad]
        cases hbc : (performBroadSearch store (analyzeUserQuery msg)).cats c with
        | none => simp [hrc c]
        | some s => simp
      obtain ⟨b1, b2, b3, b4⟩ := hb
      refine ⟨?_, ?_, ?_, b4⟩
      · intro c
        show ((mergeBroad r (performBroadSearch store (analyzeUserQuery msg))).cats c).isSome
            = true ↔
          tableName c ∈ (performBroadSearch store (analyzeUserQuery msg)).tablesSearched
        rw [hcats c]
        exact b1 c
      · intro c s hs
        have hs' : (performBroadSearch store (analyzeUserQuery msg)).cats c = some s := by
          rw [← hcats c]; exact hs
        exact b2 c s hs'
      · show (performBroadSearch store (analyzeUserQuery msg)).totalResults = _
        have hcseq : catSum
            { mergeBroad r (performBroadSearch store (analyzeUserQuery msg)) with
                searchQuery := msg,
                queryAnalysis := some (analyzeUserQuery msg) } =
            catSum (performBroadSearch store (analyzeUserQuery msg)) := by
          unfold catSum
          refine congrArg List.sum (List.map_congr_left ?_)
          intro c _
          exact congrArg rsLen (hcats c)
        rw [hcseq]
        exact b3
    · have heq : performComprehensiveSearch store msg =
          { r with
              searchQuery := msg,
              queryAnalysis := some (analyzeUserQuery msg) } := by
        simp only [performComprehensiveSearch, performComprehensiveSearchCounted,
          hrun, if_neg h0]
      rw [heq]
      obtain ⟨r1, r2, r3, r4⟩ := hinv
      exact ⟨r1, r2, r3, r4⟩

/-! ## Word-boundary matching lemmas (C9) -/

/-- Decomposition of a word-boundary match. -/
theorem wordAt_parts {s : List Char} {i : Nat} {w : List Char}
    (h : wordAt s i w = true) :
    w <+: s.drop i ∧
    (i = 0 ∨ (s.get? (i - 1)).any isWordChar = false) ∧
    (s.get? (i + w.length)).any isWordChar = false := by
  simp only [wordAt, Bool.and_eq_true, Bool.or_eq_true, beq_iff_eq,
    Bool.not_eq_true', List.isPrefixOf_iff_prefix] at h
  tauto

/-- A non-empty word can only match strictly inside the string. -/
theorem wordAt_pos_lt {s w : List Char} {i : Nat} (hne : w ≠ [])
    (h : wordAt s i w = true) : i < s.length := by
  obtain ⟨hpre, -, -⟩ := wordAt_parts h
  have h1 : w.length ≤ (s.drop i).length := hpre.length_le
  have h2 : 0 < w.length := List.length_pos.mpr hne
  rw [List.length_drop] at h1
  omega

/-- Characters inside an all-word-character match are word characters of
the string. -/
theorem wordAt_get_wordChar {s w : List Char} {i k : Nat}
    (h : wordAt s i w = true) (hall : w.all isWordChar = true)
    (hk : k < w.length) : (s.get? (i + k)).any isWordChar = true := by
  obtain ⟨hpre, -, -⟩ := wordAt_parts h
  obtain ⟨t, ht⟩ := hpre
  have hg : (s.drop i).get? k = w.get? k := by
    rw [← ht]; exact List.get?_append hk
  obtain ⟨ch, hch⟩ : ∃ ch, w.get? k = some ch := by
    cases hwk : w.get? k with
    | none => rw [List.get?_eq_none] at hwk; omega
    | some ch => exact ⟨ch, rfl⟩
  have hword : isWordChar ch = true := by
    rw [List.all_eq_true] at hall
    exact hall ch (List.get?_mem hch)
  have hs : s.get? (i + k) = some ch := by
    rw [← List.get?_drop s i k, hg, hch]
  rw [hs]
  simpa using hword

/-- At a fixed position, two all-word-character boundary matches agree. -/
theorem wordAt_unique_aux {s u v : List Char} {i : Nat}
    (hu : wordAt s i u = true) (hv : wordAt s i v = true)
    (hcv : v.all isWordChar = true) (hle : u.length ≤ v.length) : u = v := by
  obtain ⟨hpu, -, hbu⟩ := wordAt_parts hu
  obtain ⟨hpv, -, -⟩ := wordAt_parts hv
  rcases Nat.lt_or_ge u.length v.length with hlt | hge
  · exfalso
    have hchar := wordAt_get_wordChar hv hcv hlt
    rw [hbu] at hchar
    exact absurd hchar (by decide)
  · exact (List.prefix_of_prefix_length_le hpu hpv hle).eq_of_length
      (le_antisymm hle hge)

/-- At a fixed position, the boundary match is unique. -/
theorem wordAt_unique {s u v : List Char} {i : Nat}
    (hu : wordAt s i u = true) (hv : wordAt s i v = true)
    (hcu : u.all isWordChar = true) (hcv : v.all isWordChar = true) : u = v := by
  rcases le_total u.length v.length with h | h
  · exact wordAt_unique_aux hu hv hcv h
  · exact (wordAt_unique_aux hv hu hcu h).symm

/-- A boundary match cannot start strictly inside, or flush against the end
of, another all-word-character match. -/
theorem wordAt_disjoint {s w0 w : List Char} {i0 i : Nat}
    (h0 : wordAt s i0 w0 = true) (hc0 : w0.all isWordChar = true)
    (h : wordAt s i w = true) (hgt : i0 < i) (hle : i ≤ i0 + w0.length) :
    False := by
  obtain ⟨-, hb, -⟩ := wordAt_parts h
  rcases hb with h0' | hb'
  · omega
  · have hk : i - 1 - i0 < w0.length := by omega
    have hchar := wordAt_get_wordChar h0 hc0 hk
    have heq : i0 + (i - 1 - i0) = i - 1 := by omega
    rw [heq, hb'] at hchar
    exact absurd hchar (by decide)

theorem findWordAt_some {words : List (List Char)} {s : List Char} {i : Nat}
    {w : List Char} (h : findWordAt words s i = some w) :
    w ∈ words ∧ wordAt s i w = true :=
  ⟨List.mem_of_find?_eq_some h, List.find?_some h⟩

theorem findWordAt_none {words : List (List Char)} {s : List Char} {i : Nat}
    (h : findWordAt words s i = none) {w : List Char} (hw : w ∈ words) :
    wordAt s i w = false := by
  have := List.find?_eq_none.mp h w hw
  simpa using this

/-- What a successful scan returns: a position at or after the start, an
actual alternation match there, and nothing matching earlier. -/
theorem firstMatchFrom_spec {words : List (List Char)} {s : List Char} :
    ∀ (fuel li i : Nat) (w : List Char),
      firstMatchFrom words s fuel li = some (i, w) →
      li ≤ i ∧ findWordAt words s i = some w ∧
        ∀ j, li ≤ j → j < i → findWordAt words s j = none := by
  intro fuel
  induction fuel with
  | zero => intro li i w h; simp [firstMatchFrom] at h
  | succ fuel ih =>
    intro li i w h
    simp only [firstMatchFrom] at h
    cases hf : findWordAt words s li with
    | some w0 =>
      rw [hf] at h
      injection h with h'
      injection h' with h1 h2
      subst h1; subst h2
      exact ⟨le_refl _, hf, fun j hj1 hj2 => absurd (lt_of_le_of_lt hj1 hj2)
        (lt_irrefl _)⟩
    | none =>
      rw [hf] at h
      by_cases hlt : li < s.length
      · rw [if_pos hlt] at h
        obtain ⟨h1, h2, h3⟩ := ih (li + 1) i w h
        refine ⟨by omega, h2, ?_⟩
        intro j hj1 hj2
        rcases Nat.eq_or_lt_of_le hj1 with rfl | hj1'
        · exact hf
        · exact h3 j (by omega) hj2
      · rw [if_neg hlt] at h; cases h

/-- If something matches at or after the start and the fuel covers the
string, the scan succeeds. -/
theorem firstMatchFrom_isSome {words : List (List Char)} {s : List Char}
    (hne : ∀ w' ∈ words, w' ≠ []) {i : Nat} {w : List Char}
    (hw : w ∈ words) (hmatch : wordAt s i w = true) :
    ∀ (fuel li : Nat), li ≤ i → s.length + 1 - li ≤ fuel →
      ∃ p, firstMatchFrom words s fuel li = some p := by
  intro fuel
  induction fuel with
  | zero =>
    intro li hli hfuel
    exfalso
    have := wordAt_pos_lt (hne w hw) hmatch
    omega
  | succ fuel ih =>
    intro li hli hfuel
    cases hf : findWordAt words s li with
    | some w0 => exact ⟨(li, w0), by simp [firstMatchFrom, hf]⟩
    | none =>
      have hlin : li ≠ i := by
        intro h
        subst h
        have hfalse := findWordAt_none hf hw
        rw [hmatch] at hfalse
        exact absurd hfalse (by decide)
      have hlt : li < s.length := by
        have := wordAt_pos_lt (hne w hw) hmatch
        omega
      obtain ⟨p, hp⟩ := ih (li + 1) (by omega) (by omega)
      exact ⟨p, by simp [firstMatchFrom, hf, hlt, hp]⟩

/-- Completeness of the global scan: every word-boundary occurrence of an
alternation word at or after the scan point is collected. -/
theorem mem_matchAllAux {words : List (List Char)} {s : List Char}
    (hne : ∀ w' ∈ words, w' ≠ [])
    (hch : ∀ w' ∈ words, w'.all isWordChar = true)
    {i : Nat} {w : List Char} (hw : w ∈ words)
    (hmatch : wordAt s i w = true) :
    ∀ (fuel li : Nat), li ≤ i → s.length + 1 - li ≤ fuel →
      w ∈ matchAllAux words s fuel li := by
  intro fuel
  induction fuel with
  | zero =>
    intro li hli hfuel
    exfalso
    have := wordAt_pos_lt (hne w hw) hmatch
    omega
  | succ fuel ih =>
    intro li hli hfuel
    obtain ⟨⟨i0, w0⟩, hp⟩ := firstMatchFrom_isSome hne hw hmatch
      (s.length + 1 - li) li hli (le_refl _)
    obtain ⟨hli0, hfind, hmin⟩ := firstMatchFrom_spec _ li i0 w0 hp
    obtain ⟨hw0mem, hw0match⟩ := findWordAt_some hfind
    have hi0le : i0 ≤ i := by
      by_contra hlt
      push_neg at hlt
      have hnone := hmin i hli hlt
      have h2 := findWordAt_none hnone hw
      rw [hmatch] at h2
      exact absurd h2 (by decide)
    simp only [matchAllAux, hp]
    rcases Nat.eq_or_lt_of_le hi0le with rfl | hlt0
    · have hww0 : w = w0 :=
        wordAt_unique hmatch hw0match (hch w hw) (hch w0 hw0mem)
      rw [hww0]
      exact List.mem_cons_self _ _
    · have hout : ¬ (i ≤ i0 + w0.length) := fun hle =>
        wordAt_disjoint hw0match (hch w0 hw0mem) hmatch hlt0 hle
      have hlen0 : 0 < w0.length := List.length_pos.mpr (hne w0 hw0mem)
      exact List.mem_cons_of_mem _ (ih (i0 + w0.length) (by omega) (by omega))

/-- `dedupFirstAux` keeps every unseen element. -/
theorem mem_dedupFirstAux {x : List Char} :
    ∀ (l seen : List (List Char)), x ∈ l → ¬ x ∈ seen →
      x ∈ dedupFirstAux seen l := by
  intro l
  induction l with
  | nil => intro seen h _; cases h
  | cons y ys ih =>
    intro seen hx hseen
    by_cases hxy : x = y
    · subst hxy
      simp only [dedupFirstAux]
      have hc : ¬ (seen.contains x = true) := fun h => hseen (by simpa using h)
      rw [if_neg hc]
      exact List.mem_cons_self _ _
    · have hmem : x ∈ ys := by
        rcases List.mem_cons.mp hx with h | h
        · exact absurd h hxy
        · exact h
      simp only [dedupFirstAux]
      by_cases hc : seen.contains y = true
      · rw [if_pos hc]
        exact ih seen hmem hseen
      · rw [if_neg hc]
        refine List.mem_cons_of_mem _ (ih (y :: seen) hmem ?_)
        intro hx'
        rcases List.mem_cons.mp hx' with h | h
        · exact hxy h
        · exact hseen h

/-- `[...new Set(l)]` keeps every element. -/
theorem mem_dedupFirst {x : List Char} {l : List (List Char)} (h : x ∈ l) :
    x ∈ dedupFirst l :=
  mem_dedupFirstAux l [] h (by simp)

/-- Facts about the material vocabulary. -/
theorem materialKeywords_ne : ∀ w ∈ materialKeywords, w ≠ [] := by decide

theorem materialKeywords_chars :
    ∀ w ∈ materialKeywords, w.all isWordChar = true := by decide

theorem materialKeywords_lower :
    ∀ w ∈ materialKeywords, toLowerList w = w := by decide

/-- A word-boundary occurrence of a material keyword in the case-folded
message puts that keyword into `materials`. -/
theorem mem_materials {msg w : List Char} {i : Nat}
    (hw : w ∈ materialKeywords)
    (hocc : wordAt (toLowerList msg) i w = true) :
    w ∈ (analyzeUserQuery msg).materials := by
  have h1 : w ∈ matchAll materialKeywords (toLowerList msg) :=
    mem_matchAllAux materialKeywords_ne materialKeywords_chars hw hocc
      ((toLowerList msg).length + 1) 0 (Nat.zero_le i) (le_refl _)
  have h2 : w ∈ (matchAll materialKeywords (toLowerList msg)).map toLowerList := by
    have hmap := List.mem_map_of_mem toLowerList h1
    rwa [materialKeywords_lower w hw] at hmap
  show w ∈ dedupFirst ((matchAll materialKeywords (toLowerList msg)).map toLowerList)
  exact mem_dedupFirst h2

/-! ## C9 -/

/-- C9: for every message with a word-boundary occurrence of a material
keyword (at position `i` of the case-folded text), that keyword appears in
the analysis' `materials` list (case-folded, deduplicated), and both
`searchProjects` and `searchItemCodes` are forced true. -/
theorem claim9_materials (msg w : List Char) (i : Nat)
    (hw : w ∈ materialKeywords)
    (hocc : wordAt (toLowerList msg) i w = true) :
    w ∈ (analyzeUserQuery msg).materials ∧
    (analyzeUserQuery msg).searchProjects = true ∧
    (analyzeUserQuery msg).searchItemCodes = true := by
  have hm := mem_materials hw hocc
  have hpos : 0 < (analyzeUserQuery msg).materials.length :=
    List.length_pos.mpr (List.ne_nil_of_mem hm)
  refine ⟨hm, ?_, ?_⟩
  · show (regexTest projectKeywords (toLowerList msg) ||
        decide (0 < (csiMatchAll (toLowerList msg)).length) ||
        decide (0 < (analyzeUserQuery msg).materials.length)) = true
    rw [decide_eq_true hpos]
    simp
  · show (regexTest itemCodeKeywords (toLowerList msg) ||
        decide (0 < (analyzeUserQuery msg).materials.length) ||
        containsSub (toLowerList msg) ("item".toList) ||
        containsSub (toLowerList msg) ("code".toList)) = true
    rw [decide_eq_true hpos]
    simp

/-- C9 witness: "we need steel beams" has "steel" at position 8 of its
case-folding, and the conclusion evaluates as stated. -/
theorem claim9_materials_witness :
    "steel".toList ∈ (analyzeUserQuery ("we need steel beams".toList)).materials ∧
    (analyzeUserQuery ("we need steel beams".toList)).searchProjects = true ∧
    (analyzeUserQuery ("we need steel beams".toList)).searchItemCodes = true :=
  claim9_materials ("we need steel beams".toList) ("steel".toList) 8
    (by decide) (by decide)

/-! ## Extraction lemmas (C10) -/

/-- A successful capture is strictly shorter than the prompt: the prompt
also contains the 15-character marker and the closing quote. -/
theorem capAt_some_short {s : List Char} {i : Nat} {c : List Char}
    (h : capAt s i = some c) : c.length + 16 ≤ s.length := by
  simp only [capAt] at h
  by_cases hpre : userMsgMarker.isPrefixOf (s.drop i) = true
  · rw [if_pos hpre] at h
    have hlen : userMsgMarker.length ≤ (s.drop i).length :=
      (List.isPrefixOf_iff_prefix.mp hpre).length_le
    rw [List.length_drop] at hlen
    have hm : userMsgMarker.length = 15 := by decide
    by_cases hcap :
        ((s.drop (i + userMsgMarker.length)).takeWhile
          (fun ch => !(ch == '"'))).isEmpty = true
    · rw [if_pos hcap] at h; cases h
    · rw [if_neg hcap] at h
      by_cases hq : (s.drop (i + userMsgMarker.length)).get?
          ((s.drop (i + userMsgMarker.length)).takeWhile
            (fun ch => !(ch == '"'))).length = some '"'
      · rw [if_pos hq] at h
        injection h with hc
        have hlt : ((s.drop (i + userMsgMarker.length)).takeWhile
            (fun ch => !(ch == '"'))).length <
            (s.drop (i + userMsgMarker.length)).length := by
          by_contra hge
          rw [List.get?_eq_none.mpr (by omega)] at hq
          cases hq
        rw [List.length_drop] at hlt
        rw [← hc]
        omega
      · rw [if_neg hq] at h; cases h
  · rw [if_neg hpre] at h; cases h

/-- What a successful extraction scan returns: the capture of the leftmost
position where the whole pattern matches. -/
theorem extractScan_spec {s : List Char} :
    ∀ (fuel i : Nat) (c : List Char),
      extractScan s fuel i = some c →
      ∃ j, i ≤ j ∧ capAt s j = some c ∧
        ∀ k, i ≤ k → k < j → capAt s k = none := by
  intro fuel
  induction fuel with
  | zero => intro i c h; simp [extractScan] at h
  | succ fuel ih =>
    intro i c h
    simp only [extractScan] at h
    cases hcap : capAt s i with
    | some c0 =>
      rw [hcap] at h
      injection h with h'
      subst h'
      exact ⟨i, le_refl _, hcap, fun k hk1 hk2 =>
        absurd (lt_of_le_of_lt hk1 hk2) (lt_irrefl _)⟩
    | none =>
      rw [hcap] at h
      by_cases hlt : i < s.length
      · rw [if_pos hlt] at h
        obtain ⟨j, hj1, hj2, hj3⟩ := ih (i + 1) c h
        refine ⟨j, by omega, hj2, ?_⟩
        intro k hk1 hk2
        rcases Nat.eq_or_lt_of_le hk1 with rfl | hk1'
        · exact hcap
        · exact hj3 k (by omega) hk2
      · rw [if_neg hlt] at h; cases h

/-- If the pattern matches somewhere at or after the scan point (and the
fuel covers the string), the scan succeeds. -/
theorem extractScan_isSome {s : List Char} {j : Nat} {c : List Char}
    (hj : capAt s j = some c) :
    ∀ (fuel i : Nat), i ≤ j → s.length + 1 - i ≤ fuel →
      ∃ c', extractScan s fuel i = some c' := by
  have hjlt : j < s.length := by
    have := capAt_some_short hj
    by_contra hge
    push_neg at hge
    simp only [capAt] at hj
    by_cases hpre : userMsgMarker.isPrefixOf (s.drop j) = true
    · have hlen : userMsgMarker.length ≤ (s.drop j).length :=
        (List.isPrefixOf_iff_prefix.mp hpre).length_le
      rw [List.length_drop] at hlen
      have hm : userMsgMarker.length = 15 := by decide
      omega
    · rw [if_neg hpre] at hj; cases hj
  intro fuel
  induction fuel with
  | zero => intro i hi hfuel; omega
  | succ fuel ih =>
    intro i hi hfuel
    cases hcap : capAt s i with
    | some c0 => exact ⟨c0, by simp [extractScan, hcap]⟩
    | none =>
      have hij : i ≠ j := by
        intro h
        rw [h, hj] at hcap
        cases hcap
      have hilt : i < s.length := by omega
      obtain ⟨c', hc'⟩ := ih (i + 1) (by omega) (by omega)
      exact ⟨c', by simp [extractScan, hcap, hilt, hc']⟩

/-- A scan over a prompt with no pattern match anywhere finds nothing. -/
theorem extractScan_none {s : List Char} (h : ∀ j, capAt s j = none) :
    ∀ (fuel i : Nat), extractScan s fuel i = none := by
  intro fuel
  induction fuel with
  | zero => intro i; rfl
  | succ fuel ih =>
    intro i
    simp [extractScan, h i, ih]

/-! ## C10 -/

/-- C10: when a request supplies a prompt but no `userMessage`, the message
fed to the analyzer is the captured group of the leftmost
`USER MESSAGE: "..."` match inside the prompt — never the raw prompt
itself, which is strictly longer — and only when no position of the prompt
matches the pattern is the entire prompt used. -/
theorem claim10_extract (prompt : List Char) :
    ((∃ j, (capAt prompt j).isSome = true) →
      ∃ j cap, capAt prompt j = some cap ∧
        (∀ k, k < j → capAt prompt k = none) ∧
        actualUserMessageOf none (some prompt) = cap ∧
        actualUserMessageOf none (some prompt) ≠ prompt) ∧
    ((∀ j, capAt prompt j = none) →
      actualUserMessageOf none (some prompt) = prompt) := by
  constructor
  · rintro ⟨j0, hj0⟩
    obtain ⟨c0, hc0⟩ := Option.isSome_iff_exists.mp hj0
    obtain ⟨c, hc⟩ := extractScan_isSome hc0 (prompt.length + 1) 0
      (Nat.zero_le j0) (le_refl _)
    obtain ⟨j, hj1, hj2, hj3⟩ := extractScan_spec (prompt.length + 1) 0 c hc
    have hact : actualUserMessageOf none (some prompt) = c := by
      show extractUserMessage prompt = c
      unfold extractUserMessage
      rw [hc]
      rfl
    refine ⟨j, c, hj2, fun k hk => hj3 k (Nat.zero_le k) hk, hact, ?_⟩
    rw [hact]
    intro hcp
    have := capAt_some_short hj2
    have : c.length = prompt.length := congrArg List.length hcp
    omega
  · intro hnone
    show extractUserMessage prompt = prompt
    unfold extractUserMessage
    rw [extractScan_none hnone (prompt.length + 1) 0]
    rfl

/-- C10 witness: a prompt containing the marker; the pattern matches at
position 14, and the message handed to the analyzer is the capture, not
the prompt. -/
theorem claim10_extract_witness :
    (∃ j, (capAt markerPrompt j).isSome = true) ∧
    actualUserMessageOf none (some markerPrompt) ≠ markerPrompt := by
  have hex : ∃ j, (capAt markerPrompt j).isSome = true := ⟨14, by decide⟩
  obtain ⟨j, cap, _, _, _, hne⟩ := (claim10_extract markerPrompt).1 hex
  exact ⟨hex, hne⟩

end TestItemCodes
